import Mathlib

/-!
A shallow embedding of the Face_Recognization repository
(`src/utils/directory_utils.py`, `src/face_database.py`,
`src/webcam_logger.py`, `src/live_camera.py`), with theorems settling
the specification claims about it.

External collaborators are modelled as parameters: a directory is the
list of its file names, the image extractor is a function from an image
name to an extraction result, the face-distance primitive of the
`face_recognition` library is a function `d` valued in `ℚ`, the camera
is a list of read-success flags, and the wall clock is a timestamp
argument.  Machine floats are modelled as rationals: every claim only
uses their ordering and the constants 0, which the embedding preserves.
-/

namespace FaceRec

/-! ### Embedding of `src/utils/directory_utils.py` -/

/-- Lexicographic order on path strings: Python compares same-directory
`Path` objects by the character sequence of the final component, which
`sorted` uses.  Modelled as the lexicographic order on the character
list of the file name. -/
def pathLe (a b : String) : Prop := a.data ≤ b.data

instance : DecidableRel pathLe := fun a b =>
  inferInstanceAs (Decidable (a.data ≤ b.data))

instance : IsTotal String pathLe := ⟨fun a b => le_total a.data b.data⟩

instance : IsTrans String pathLe := ⟨fun _ _ _ h1 h2 => le_trans h1 h2⟩

/-- The default `extensions` argument of
`directory_utils.list_image_files`. -/
def image_extensions : List String := [".jpg", ".jpeg", ".png", ".bmp", ".gif"]

/-- Python `ext.upper()` on the (ASCII) extension strings the code
applies it to. -/
def str_upper (s : String) : String := String.mk (s.data.map Char.toUpper)

/-- One `path.glob` call with pattern `"*" ++ ext`: on a case-sensitive
filesystem it keeps exactly the file names ending in `ext`. -/
def glob_suffix (files : List String) (ext : String) : List String :=
  files.filter (fun f => List.isSuffixOf ext.data f.data)

/-- `directory_utils.list_image_files`: a missing directory yields `[]`;
otherwise, for each extension in order, collect the files matching the
lowercase glob pattern and then the files matching the uppercase one,
and finally sort the collected list (`sorted(image_files)`). -/
def list_image_files (dirExists : Bool) (files : List String) : List String :=
  if dirExists = false then []
  else
    List.insertionSort pathLe
      (image_extensions.foldl
        (fun acc ext => acc ++ glob_suffix files ext ++ glob_suffix files (str_upper ext))
        [])

/-! ### The Matcher of `FaceRecognitionLogger.process_frame`
(`src/webcam_logger.py`, lines 140-154) -/

/-- Modelled from the spec: `face_recognition.face_distance(known, q)`,
the external comparator primitive missing from the repository — one
numeric distance per stored encoding, lower meaning more similar.  The
distance function `d` is a parameter of the embedding. -/
def face_distance {α : Type} (d : α → α → ℚ) (known : List α) (q : α) : List ℚ :=
  known.map (fun k => d k q)

/-- Modelled from the spec: `face_recognition.compare_faces(known, q)`,
the external comparator primitive missing from the repository — a
boolean list of the same length as the store, a flag being true exactly
when the corresponding distance is within the tolerance. -/
def compare_faces {α : Type} (d : α → α → ℚ) (tol : ℚ) (known : List α) (q : α) :
    List Bool :=
  known.map (fun k => decide (d k q ≤ tol))

/-- Modelled from the spec: the minimum of a nonempty distance list, as
`numpy` computes it (the value 0 for `[]` is never queried by the code,
which guards on the length). -/
def listMin : List ℚ → ℚ
  | [] => 0
  | [x] => x
  | x :: y :: ys => if x ≤ listMin (y :: ys) then x else listMin (y :: ys)

/-- Modelled from the spec: `numpy.argmin` — the index of the first
occurrence of the minimum. -/
def argminIdx : List ℚ → Nat
  | [] => 0
  | [_] => 0
  | x :: y :: ys => if x ≤ listMin (y :: ys) then 0 else argminIdx (y :: ys) + 1

/-- `best_match_index = np.argmin(face_distances)` in `process_frame`
(line 149). -/
def best_match_index {α : Type} (d : α → α → ℚ) (encs : List α) (q : α) : Nat :=
  argminIdx (face_distance d encs q)

/-- One iteration of the per-face loop of
`FaceRecognitionLogger.process_frame` (lines 140-151): the name assigned
to the query encoding, paired with the flag telling whether the
`matches[best_match_index]` branch was taken (the branch that also calls
`log_recognition`). -/
def matchStep {α : Type} (d : α → α → ℚ) (tol : ℚ)
    (encs : List α) (names : List String) (q : α) : String × Bool :=
  if 0 < (face_distance d encs q).length then
    if (compare_faces d tol encs q).getD (best_match_index d encs q) false then
      (names.getD (best_match_index d encs q) "Unknown", true)
    else ("Unknown", false)
  else ("Unknown", false)

/-- The Matcher: the name `process_frame` assigns to one query
encoding. -/
def matchName {α : Type} (d : α → α → ℚ) (tol : ℚ)
    (encs : List α) (names : List String) (q : α) : String :=
  (matchStep d tol encs names q).1

/-- The discrete distance on rational "encodings": 0 when equal, 1
otherwise.  A concrete instance of the abstract distance parameter,
used to evaluate the embedding on concrete inputs. -/
def dDisc (x y : ℚ) : ℚ := if x = y then 0 else 1

/-! ### The Recognition Session (`FaceRecognitionLogger.log_recognition`) -/

/-- The per-session logging state of `FaceRecognitionLogger`: the
`recognized_faces` set (as a duplicate-free list) and the recognition
lines written to the log file, each line modelled by its
`(timestamp, name)` payload (the written text is
`"[" ++ timestamp ++ "] Recognized: " ++ name`). -/
structure Session where
  recognized : List String
  entries : List (String × String)
  deriving DecidableEq, Repr

/-- The session state right after `initialize_logging`: nothing
recognized yet, no recognition entry written. -/
def initSession : Session := ⟨[], []⟩

/-- `FaceRecognitionLogger.log_recognition`: append a timestamped entry
and record the name exactly when the name is not `"Unknown"` and not
already in `recognized_faces`; otherwise do nothing. -/
def log_recognition (ts : String) (name : String) (s : Session) : Session :=
  if name ≠ "Unknown" ∧ name ∉ s.recognized then
    ⟨s.recognized ++ [name], s.entries ++ [(ts, name)]⟩
  else s

/-! ### Embedding of `src/face_database.py` -/

/-- What the external extractor does on one enrollment image: either the
(possibly empty) encoding list `face_recognition.face_encodings`
returns, or a raised exception carrying its message. -/
inductive ExtractResult (α : Type) where
  | ok (encs : List α)
  | failure (msg : String)

/-- What one call of `FaceDatabase._load_face_encoding` produces: the
accepted encoding, if any, and the warning lines printed. -/
structure LoadOutcome (α : Type) where
  encoding : Option α
  warnings : List String
  deriving DecidableEq, Repr

/-- `FaceDatabase._load_face_encoding`: an extraction failure yields no
encoding and an error line; zero faces yield no encoding and a warning;
several faces yield the first encoding and a warning; exactly one face
yields that encoding and no warning.  The function is total: no case
propagates a failure. -/
def load_face_encoding {α : Type} (imageName : String) (r : ExtractResult α) :
    LoadOutcome α :=
  match r with
  | .failure msg => ⟨none, ["  Error loading " ++ imageName ++ ": " ++ msg]⟩
  | .ok [] => ⟨none, ["  Warning: No face found in " ++ imageName]⟩
  | .ok (e :: rest) =>
    ⟨some e,
      if rest.isEmpty then []
      else ["  Warning: Multiple faces found in " ++ imageName ++ ", using first one"]⟩

/-- The mutable state of a `FaceDatabase` instance: the two parallel
lists and the `encoding_count` dict, the dict modelled as an association
list in insertion order. -/
structure FaceDatabase (α : Type) where
  known_face_encodings : List α
  known_face_names : List String
  encoding_count : List (String × Nat)
  deriving DecidableEq, Repr

/-- A freshly constructed `FaceDatabase` (`__init__`): empty lists and
an empty dict. -/
def initDatabase {α : Type} : FaceDatabase α := ⟨[], [], []⟩

/-- Python dict assignment `d[k] = v` on an association list. -/
def setCount : List (String × Nat) → String → Nat → List (String × Nat)
  | [], k, v => [(k, v)]
  | (k0, v0) :: rest, k, v =>
    if k0 = k then (k, v) :: rest else (k0, v0) :: setCount rest k v

/-- The body of the inner image loop of `FaceDatabase.load_database`:
when `_load_face_encoding` accepted an encoding, append it and the
person's name to the parallel lists and bump `encodings_loaded`;
otherwise move on. -/
def load_images_step {α : Type} (extract : String → ExtractResult α)
    (personName : String) (acc : FaceDatabase α × Nat) (im : String) :
    FaceDatabase α × Nat :=
  match (load_face_encoding im (extract im)).encoding with
  | some e =>
    (⟨acc.1.known_face_encodings ++ [e], acc.1.known_face_names ++ [personName],
      acc.1.encoding_count⟩, acc.2 + 1)
  | none => acc

/-- The inner image loop of `FaceDatabase.load_database` for one person:
fold over the person's image files, starting from `encodings_loaded = 0`. -/
def load_images {α : Type} (extract : String → ExtractResult α) (personName : String)
    (imgs : List String) (db : FaceDatabase α) : FaceDatabase α × Nat :=
  imgs.foldl (load_images_step extract personName) (db, 0)

/-- The body of the per-person loop of `FaceDatabase.load_database`: list
the person directory's image files, skip the person when there are none
(`continue` after a warning), otherwise run the image loop and record the
person's count in `encoding_count`.  A person directory is modelled as
its name paired with the list of file names it holds. -/
def load_person_step {α : Type} (extract : String → ExtractResult α)
    (acc : FaceDatabase α) (p : String × List String) : FaceDatabase α :=
  let image_files := list_image_files true p.2
  if image_files.isEmpty then acc
  else
    let r := load_images extract p.1 image_files acc
    { r.1 with encoding_count := setCount r.1.encoding_count p.1 r.2 }

/-- `FaceDatabase.load_database`: return the current lists unchanged when
the faces directory is missing or holds no person directories; otherwise
process every person directory in turn.  Nothing is ever cleared: the
loop appends to whatever the instance lists already hold. -/
def load_database {α : Type} (extract : String → ExtractResult α) (dirExists : Bool)
    (persons : List (String × List String)) (db : FaceDatabase α) : FaceDatabase α :=
  if dirExists = false then db
  else if persons.isEmpty then db
  else persons.foldl (load_person_step extract) db

/-- The encodings one image list contributes to the store: the accepted
results of `_load_face_encoding` on each file, in order. -/
def personEncs {α : Type} (extract : String → ExtractResult α) (imgs : List String) :
    List α :=
  imgs.filterMap (fun im => (load_face_encoding im (extract im)).encoding)

/-- The encodings one full `load_database` pass appends to the store:
per person directory, the contribution of its image file list. -/
def freshEncodings {α : Type} (extract : String → ExtractResult α)
    (persons : List (String × List String)) : List α :=
  (persons.map (fun p => personEncs extract (list_image_files true p.2))).flatten

/-- The names one full `load_database` pass appends, parallel to
`freshEncodings`: each person's name repeated once per accepted encoding
of that person. -/
def freshNames {α : Type} (extract : String → ExtractResult α)
    (persons : List (String × List String)) : List String :=
  (persons.map (fun p =>
    List.replicate (personEncs extract (list_image_files true p.2)).length p.1)).flatten

/-! ### Embedding of `FaceRecognitionLogger` frame processing and run -/

/-- The mutable state of `FaceRecognitionLogger` read and written by
`process_frame` (fields set up in `__init__`). -/
structure LoggerState (α : Type) where
  known_face_encodings : List α
  known_face_names : List String
  process_every_n_frames : Nat
  frame_count : Nat
  face_locations : List (Nat × Nat × Nat × Nat)
  face_encodings : List α
  face_names : List String
  session : Session
  deriving DecidableEq, Repr

/-- The state `FaceRecognitionLogger.__init__` sets up: empty store,
`process_every_n_frames = 2`, counter 0, empty caches, fresh session. -/
def initLoggerState {α : Type} : LoggerState α :=
  ⟨[], [], 2, 0, [], [], [], initSession⟩

/-- The body of the per-face-encoding loop in `process_frame`
(lines 140-154): run the Matcher, and when the
`matches[best_match_index]` branch was taken run `log_recognition`;
either way append the name to `face_names`. -/
def faceLoopStep {α : Type} (d : α → α → ℚ) (tol : ℚ) (ts : String)
    (encs : List α) (names : List String)
    (acc : List String × Session) (q : α) : List String × Session :=
  let r := matchStep d tol encs names q
  (acc.1 ++ [r.1], if r.2 then log_recognition ts r.1 acc.2 else acc.2)

/-- `FaceRecognitionLogger.process_frame`: on a frame whose counter is a
multiple of `process_every_n_frames`, recompute the face locations,
encodings and names (running the Matcher and `log_recognition` per
face); on any other frame leave them all untouched; in both cases
increment `frame_count`.  `locate` models
`face_recognition.face_locations` on the downscaled frame, `encode`
models `face_recognition.face_encodings`, and `ts` the wall clock; the
drawing of boxes on the returned frame is display-only and not part of
the state. -/
def process_frame {α β : Type} (d : α → α → ℚ) (tol : ℚ)
    (locate : β → List (Nat × Nat × Nat × Nat))
    (encode : β → List (Nat × Nat × Nat × Nat) → List α)
    (ts : String) (st : LoggerState α) (frame : β) : LoggerState α :=
  if st.frame_count % st.process_every_n_frames = 0 then
    let locs := locate frame
    let encs := encode frame locs
    let r := encs.foldl
      (faceLoopStep d tol ts st.known_face_encodings st.known_face_names)
      ([], st.session)
    { st with
      face_locations := locs
      face_encodings := encs
      face_names := r.1
      session := r.2
      frame_count := st.frame_count + 1 }
  else { st with frame_count := st.frame_count + 1 }

/-- What one call of `FaceRecognitionLogger.run` did, in the terms the
claims speak about: which initialization stages succeeded, whether the
timestamped log artifact was created, and how many frames were
processed. -/
structure RunResult where
  facesLoaded : Bool
  cameraStarted : Bool
  logCreated : Bool
  framesProcessed : Nat
  deriving DecidableEq, Repr

/-- `FaceRecognitionLogger.initialize_camera`: true exactly when the
opened capture device reports `isOpened()`; on failure it prints an
error and returns `False` instead of raising. -/
def initialize_camera (cameraOpens : Bool) : Bool := cameraOpens

/-- `FaceRecognitionLogger.run`: return before touching the camera when
the store is empty; return before creating the log artifact when the
camera fails to open; otherwise create the log and process frames until
the first failed read.  `reads` is the list of success flags the capture
device returns. -/
def run (storeNonempty cameraOpens : Bool) (reads : List Bool) : RunResult :=
  if storeNonempty = false then ⟨false, false, false, 0⟩
  else if initialize_camera cameraOpens = false then ⟨true, false, false, 0⟩
  else ⟨true, true, true, (reads.takeWhile id).length⟩

/-- `live_camera.run_live`: raise `RuntimeError` (modelled as
`Except.error` with the formatted message) when the camera cannot be
opened, before any frame is read; otherwise enter the capture loop. -/
def run_live (camera_index : Nat) (cameraOpens : Bool) : Except String Unit :=
  if cameraOpens = false then
    Except.error ("Cannot open camera " ++ toString camera_index)
  else Except.ok ()

/-! ### Helper lemmas about the minimum-selection primitives -/

theorem listMin_cons₂ (x y : ℚ) (ys : List ℚ) :
    listMin (x :: y :: ys) = if x ≤ listMin (y :: ys) then x else listMin (y :: ys) := rfl

theorem argminIdx_cons₂ (x y : ℚ) (ys : List ℚ) :
    argminIdx (x :: y :: ys) =
      if x ≤ listMin (y :: ys) then 0 else argminIdx (y :: ys) + 1 := rfl

theorem argminIdx_lt_length : ∀ (l : List ℚ), l ≠ [] → argminIdx l < l.length
  | [], h => absurd rfl h
  | [_], _ => by simp [argminIdx]
  | x :: y :: ys, _ => by
    rw [argminIdx_cons₂]
    by_cases h : x ≤ listMin (y :: ys)
    · simp [h]
    · have ih := argminIdx_lt_length (y :: ys) (by simp)
      rw [if_neg h]
      simp only [List.length_cons] at ih ⊢
      omega

theorem getD_argminIdx_eq_listMin :
    ∀ (l : List ℚ), l ≠ [] → l.getD (argminIdx l) 0 = listMin l
  | [], h => absurd rfl h
  | [_], _ => by simp [argminIdx, listMin]
  | x :: y :: ys, _ => by
    rw [argminIdx_cons₂, listMin_cons₂]
    by_cases h : x ≤ listMin (y :: ys)
    · simp [h]
    · have ih := getD_argminIdx_eq_listMin (y :: ys) (by simp)
      rw [if_neg h, if_neg h, List.getD_cons_succ, ih]

theorem listMin_le_getD : ∀ (l : List ℚ) (k : Nat), k < l.length → listMin l ≤ l.getD k 0
  | [], k, h => by simp at h
  | [x], 0, _ => by simp [listMin]
  | [x], k + 1, h => by simp at h
  | x :: y :: ys, 0, _ => by
    rw [listMin_cons₂]
    by_cases h : x ≤ listMin (y :: ys)
    · simp [h]
    · simp only [if_neg h, List.getD_cons_zero]
      exact le_of_not_le h
  | x :: y :: ys, k + 1, hk => by
    have ih := listMin_le_getD (y :: ys) k (by simpa using hk)
    rw [listMin_cons₂]
    by_cases h : x ≤ listMin (y :: ys)
    · simp only [if_pos h, List.getD_cons_succ]
      exact le_trans h ih
    · simp only [if_neg h, List.getD_cons_succ]
      exact ih

theorem listMin_lt_getD_of_lt_argminIdx :
    ∀ (l : List ℚ) (k : Nat), k < argminIdx l → listMin l < l.getD k 0
  | [], k, h => by simp [argminIdx] at h
  | [_], k, h => by simp [argminIdx] at h
  | x :: y :: ys, k, hk => by
    rw [argminIdx_cons₂] at hk
    by_cases h : x ≤ listMin (y :: ys)
    · rw [if_pos h] at hk
      omega
    · rw [if_neg h] at hk
      rw [listMin_cons₂, if_neg h]
      cases k with
      | zero => simpa [List.getD_cons_zero] using lt_of_not_le h
      | succ k =>
        have ih := listMin_lt_getD_of_lt_argminIdx (y :: ys) k (by omega)
        simpa [List.getD_cons_succ] using ih

theorem getD_map_of_lt {α β : Type} (f : α → β) (l : List α) (i : Nat) (hi : i < l.length)
    (dfl : β) : (l.map f).getD i dfl = f (l.get ⟨i, hi⟩) := by
  simp [List.getD_eq_getElem?_getD, List.getElem?_map, List.getElem?_eq_getElem hi]

theorem length_face_distance {α : Type} (d : α → α → ℚ) (known : List α) (q : α) :
    (face_distance d known q).length = known.length := by
  simp [face_distance]

theorem length_compare_faces {α : Type} (d : α → α → ℚ) (tol : ℚ) (known : List α)
    (q : α) : (compare_faces d tol known q).length = known.length := by
  simp [compare_faces]

theorem face_distance_ne_nil {α : Type} (d : α → α → ℚ) (known : List α) (q : α)
    (h : known ≠ []) : face_distance d known q ≠ [] := by
  intro h0
  apply h
  have := congrArg List.length h0
  rw [length_face_distance] at this
  exact List.length_eq_zero.mp this

theorem best_match_index_lt {α : Type} (d : α → α → ℚ) (encs : List α) (q : α)
    (hne : encs ≠ []) : best_match_index d encs q < encs.length := by
  have h := argminIdx_lt_length _ (face_distance_ne_nil d encs q hne)
  rwa [length_face_distance] at h

theorem getD_best_match_index_eq_listMin {α : Type} (d : α → α → ℚ) (encs : List α)
    (q : α) (hne : encs ≠ []) :
    (face_distance d encs q).getD (best_match_index d encs q) 0 =
      listMin (face_distance d encs q) :=
  getD_argminIdx_eq_listMin _ (face_distance_ne_nil d encs q hne)

theorem matchName_eq_ite {α : Type} (d : α → α → ℚ) (tol : ℚ) (encs : List α)
    (names : List String) (q : α) (hne : encs ≠ []) :
    matchName d tol encs names q =
      (if (face_distance d encs q).getD (best_match_index d encs q) 0 ≤ tol then
        names.getD (best_match_index d encs q) "Unknown"
      else "Unknown") := by
  have hbl : best_match_index d encs q < encs.length := best_match_index_lt d encs q hne
  have hdist : (face_distance d encs q).getD (best_match_index d encs q) 0 =
      d (encs.get ⟨best_match_index d encs q, hbl⟩) q := by
    show ((encs.map (fun k => d k q)).getD (best_match_index d encs q) 0) = _
    exact getD_map_of_lt _ _ _ hbl _
  have hflag : (compare_faces d tol encs q).getD (best_match_index d encs q) false =
      decide (d (encs.get ⟨best_match_index d encs q, hbl⟩) q ≤ tol) := by
    show ((encs.map (fun k => decide (d k q ≤ tol))).getD (best_match_index d encs q)
      false) = _
    exact getD_map_of_lt _ _ _ hbl _
  have hpos : 0 < (face_distance d encs q).length := by
    rw [length_face_distance]
    exact List.length_pos.mpr hne
  rw [matchName, matchStep, if_pos hpos, hflag, hdist]
  simp only [decide_eq_true_eq, List.get_eq_getElem]
  split <;> rfl

/-! ### Claims about the Matcher -/

/-- C1: on a non-empty store, the matcher of `process_frame` computes a
distance from the query to each stored encoding, `best_match_index`
lands on the first index attaining the minimum of those distances, and
the returned name is that index's identity exactly when its match flag
(distance within the threshold) holds, otherwise "Unknown"; in
particular a minimum distance above the threshold yields "Unknown" even
though a nearest neighbor exists. -/
theorem matcher_nearest_neighbor_with_threshold {α : Type} (d : α → α → ℚ) (tol : ℚ)
    (encs : List α) (names : List String) (q : α)
    (hne : encs ≠ []) (hlen : names.length = encs.length) :
    best_match_index d encs q < encs.length ∧
    (∀ k, k < encs.length →
      (face_distance d encs q).getD (best_match_index d encs q) 0 ≤
        (face_distance d encs q).getD k 0) ∧
    (∀ k, k < best_match_index d encs q →
      (face_distance d encs q).getD (best_match_index d encs q) 0 <
        (face_distance d encs q).getD k 0) ∧
    matchName d tol encs names q =
      (if (face_distance d encs q).getD (best_match_index d encs q) 0 ≤ tol then
        names.getD (best_match_index d encs q) "Unknown"
      else "Unknown") ∧
    (tol < (face_distance d encs q).getD (best_match_index d encs q) 0 →
      matchName d tol encs names q = "Unknown") := by
  have hld : (face_distance d encs q).length = encs.length := length_face_distance d encs q
  have hbl : best_match_index d encs q < encs.length := best_match_index_lt d encs q hne
  have hmin : (face_distance d encs q).getD (best_match_index d encs q) 0 =
      listMin (face_distance d encs q) :=
    getD_best_match_index_eq_listMin d encs q hne
  have hmain := matchName_eq_ite d tol encs names q hne
  refine ⟨hbl, ?_, ?_, hmain, ?_⟩
  · intro k hk
    rw [hmin]
    exact listMin_le_getD _ k (by rwa [hld])
  · intro k hk
    rw [hmin]
    exact listMin_lt_getD_of_lt_argminIdx _ k hk
  · intro hgt
    rw [hmain, if_neg (not_le.mpr hgt)]

/-- Witness for C1: a concrete two-element store with distances 0 and 1
to the query and threshold 0. -/
theorem matcher_nearest_neighbor_with_threshold_witness :
    best_match_index dDisc [(3 : ℚ), 10] 3 < ([(3 : ℚ), 10]).length ∧
    (∀ k, k < ([(3 : ℚ), 10]).length →
      (face_distance dDisc [(3 : ℚ), 10] 3).getD (best_match_index dDisc [(3 : ℚ), 10] 3)
          0 ≤ (face_distance dDisc [(3 : ℚ), 10] 3).getD k 0) ∧
    (∀ k, k < best_match_index dDisc [(3 : ℚ), 10] 3 →
      (face_distance dDisc [(3 : ℚ), 10] 3).getD (best_match_index dDisc [(3 : ℚ), 10] 3)
          0 < (face_distance dDisc [(3 : ℚ), 10] 3).getD k 0) ∧
    matchName dDisc 0 [(3 : ℚ), 10] ["alice", "bob"] 3 =
      (if (face_distance dDisc [(3 : ℚ), 10] 3).getD
          (best_match_index dDisc [(3 : ℚ), 10] 3) 0 ≤ 0 then
        (["alice", "bob"]).getD (best_match_index dDisc [(3 : ℚ), 10] 3) "Unknown"
      else "Unknown") ∧
    ((0 : ℚ) < (face_distance dDisc [(3 : ℚ), 10] 3).getD
        (best_match_index dDisc [(3 : ℚ), 10] 3) 0 →
      matchName dDisc 0 [(3 : ℚ), 10] ["alice", "bob"] 3 = "Unknown") :=
  matcher_nearest_neighbor_with_threshold dDisc 0 [(3 : ℚ), 10] ["alice", "bob"] 3
    (by decide) (by decide)

/-- C2: matching against an empty store returns "Unknown" for every
query encoding, every distance function, every tolerance and whatever
the parallel names list holds. -/
theorem match_empty_store_unknown {α : Type} (d : α → α → ℚ) (tol : ℚ)
    (names : List String) (q : α) :
    matchName d tol [] names q = "Unknown" := rfl

/-! ### Claims about the Recognition Session -/

/-- Folding `log_recognition` over a sequence of `(timestamp, name)`
match results. -/
def logFold (seq : List (String × String)) (s : Session) : Session :=
  seq.foldl (fun acc p => log_recognition p.1 p.2 acc) s

/-- The names of the entries written so far. -/
def entryNames (s : Session) : List String := s.entries.map Prod.snd

theorem logFold_invariant (seq : List (String × String)) (s : Session)
    (h1 : ∀ x ∈ entryNames s, x ∈ s.recognized)
    (h2 : (entryNames s).Nodup)
    (h3 : "Unknown" ∉ entryNames s) :
    (∀ x ∈ entryNames (logFold seq s), x ∈ (logFold seq s).recognized) ∧
    (entryNames (logFold seq s)).Nodup ∧ "Unknown" ∉ entryNames (logFold seq s) := by
  induction seq generalizing s with
  | nil => exact ⟨h1, h2, h3⟩
  | cons p rest ih =>
    have hstep : logFold (p :: rest) s = logFold rest (log_recognition p.1 p.2 s) := rfl
    rw [hstep]
    by_cases hc : p.2 ≠ "Unknown" ∧ p.2 ∉ s.recognized
    · have hlog : log_recognition p.1 p.2 s =
          ⟨s.recognized ++ [p.2], s.entries ++ [(p.1, p.2)]⟩ := by
        rw [log_recognition, if_pos hc]
      rw [hlog]
      refine ih _ ?_ ?_ ?_
      · intro x hx
        simp only [entryNames, List.map_append] at hx
        rcases List.mem_append.mp hx with hx | hx
        · exact List.mem_append.mpr (Or.inl (h1 x hx))
        · simp only [List.map_cons, List.map_nil, List.mem_singleton] at hx
          exact List.mem_append.mpr (Or.inr (by simp [hx]))
      · simp only [entryNames, List.map_append, List.map_cons, List.map_nil]
        rw [List.nodup_append]
        refine ⟨h2, List.nodup_singleton _, ?_⟩
        intro a ha hb
        simp only [List.mem_singleton] at hb
        subst hb
        exact hc.2 (h1 _ ha)
      · simp only [entryNames, List.map_append, List.map_cons, List.map_nil]
        intro hmem
        rcases List.mem_append.mp hmem with hm | hm
        · exact h3 hm
        · simp only [List.mem_singleton] at hm
          exact hc.1 hm.symm
    · have hlog : log_recognition p.1 p.2 s = s := by
        rw [log_recognition, if_neg hc]
      rw [hlog]
      exact ih s h1 h2 h3

/-- C3: `log_recognition` appends a timestamped entry and records the
identity exactly when the name is not "Unknown" and not already in the
logged set (otherwise the session is untouched); consequently, along any
sequence of match results starting from a fresh session, every identity
is logged at most once however often it recurs, and "Unknown" is never
logged. -/
theorem log_recognition_at_most_once (ts name : String) (s : Session)
    (seq : List (String × String)) :
    (((log_recognition ts name s).entries = s.entries ++ [(ts, name)] ∧
        (log_recognition ts name s).recognized = s.recognized ++ [name]) ↔
      (name ≠ "Unknown" ∧ name ∉ s.recognized)) ∧
    (¬(name ≠ "Unknown" ∧ name ∉ s.recognized) → log_recognition ts name s = s) ∧
    (∀ x : String, (entryNames (logFold seq initSession)).count x ≤ 1) ∧
    (entryNames (logFold seq initSession)).count "Unknown" = 0 := by
  have hinv := logFold_invariant seq initSession
    (by simp [entryNames, initSession]) (by simp [entryNames, initSession])
    (by simp [entryNames, initSession])
  refine ⟨?_, ?_, ?_, ?_⟩
  · constructor
    · intro hch
      by_contra hc
      rw [log_recognition, if_neg hc] at hch
      have := congrArg List.length hch.1
      simp at this
    · intro hc
      rw [log_recognition, if_pos hc]
      exact ⟨rfl, rfl⟩
  · intro hc
    rw [log_recognition, if_neg hc]
  · intro x
    exact List.nodup_iff_count_le_one.mp hinv.2.1 x
  · exact List.count_eq_zero_of_not_mem hinv.2.2

/-- Witness for C3: logging "Unknown" leaves a fresh session untouched. -/
theorem log_recognition_at_most_once_witness :
    log_recognition "t" "Unknown" initSession = initSession :=
  (log_recognition_at_most_once "t" "Unknown" initSession []).2.1 (by decide)

/-- C4 as stated is false: take the store whose encodings, in order,
belong to "B" and "A" and are both the vector 5, with threshold 0
(which is ≥ 0).  The query 5 is identical to "A"'s stored encoding, at
distance 0 from it, yet the matcher returns "B", not "A": the first
store position attaining the minimal distance wins, whichever identity
it belongs to. -/
theorem match_zero_distance_counterexample :
    (0 : ℚ) ≤ 0 ∧
    ([(5 : ℚ), 5]).getD 1 0 = 5 ∧
    (["B", "A"]).getD 1 "" = "A" ∧
    dDisc (([(5 : ℚ), 5]).getD 1 0) 5 = 0 ∧
    matchName dDisc 0 [(5 : ℚ), 5] ["B", "A"] 5 = "B" ∧
    matchName dDisc 0 [(5 : ℚ), 5] ["B", "A"] 5 ≠ "A" := by decide

/-- C4 amended: with a nonnegative distance function, a nonnegative
threshold, parallel lists and stored identities distinct from the
"Unknown" sentinel, a query at distance 0 from some stored encoding is
matched at minimal distance 0 and never as "Unknown": the returned
identity is the one at the first store position whose distance to the
query is 0 (every earlier position has nonzero distance) — hence A
whenever every stored encoding at distance 0 from the query belongs to
A, in particular when no other identity's stored encoding coincides with
the queried one of A. -/
theorem match_zero_distance {α : Type} (d : α → α → ℚ) (tol : ℚ)
    (encs : List α) (names : List String) (q : α)
    (htol : 0 ≤ tol) (hlen : names.length = encs.length)
    (hunk : "Unknown" ∉ names)
    (hnn : ∀ i, i < encs.length → 0 ≤ (face_distance d encs q).getD i 0)
    (hzero : ∃ j, j < encs.length ∧ (face_distance d encs q).getD j 0 = 0) :
    ((face_distance d encs q).getD (best_match_index d encs q) 0 = 0) ∧
    (∀ k, k < best_match_index d encs q →
      (face_distance d encs q).getD k 0 ≠ 0) ∧
    (matchName d tol encs names q =
      names.getD (best_match_index d encs q) "Unknown") ∧
    (matchName d tol encs names q ≠ "Unknown") ∧
    (∀ A : String,
      (∀ i, i < encs.length → (face_distance d encs q).getD i 0 = 0 →
        names.getD i "Unknown" = A) →
      matchName d tol encs names q = A) := by
  obtain ⟨j, hj, hjz⟩ := hzero
  have hne : encs ≠ [] := by
    intro h0
    rw [h0] at hj
    simp at hj
  have hld : (face_distance d encs q).length = encs.length := length_face_distance d encs q
  have hbl : best_match_index d encs q < encs.length := best_match_index_lt d encs q hne
  have hbn : best_match_index d encs q < names.length := by
    rw [hlen]
    exact hbl
  have hmin : (face_distance d encs q).getD (best_match_index d encs q) 0 =
      listMin (face_distance d encs q) :=
    getD_best_match_index_eq_listMin d encs q hne
  have hminz : (face_distance d encs q).getD (best_match_index d encs q) 0 = 0 := by
    have hle : listMin (face_distance d encs q) ≤ 0 := by
      rw [← hjz]
      exact listMin_le_getD _ j (by rwa [hld])
    have hge : 0 ≤ (face_distance d encs q).getD (best_match_index d encs q) 0 :=
      hnn _ hbl
    rw [hmin]
    exact le_antisymm hle (hmin ▸ hge)
  have hfirst : ∀ k, k < best_match_index d encs q →
      (face_distance d encs q).getD k 0 ≠ 0 := by
    intro k hk
    have hlt := listMin_lt_getD_of_lt_argminIdx (face_distance d encs q) k hk
    rw [← hmin, hminz] at hlt
    exact fun h0 => absurd (h0 ▸ hlt) (lt_irrefl 0)
  have hname : matchName d tol encs names q =
      names.getD (best_match_index d encs q) "Unknown" := by
    rw [matchName_eq_ite d tol encs names q hne, hminz, if_pos htol]
  have hgetd : names.getD (best_match_index d encs q) "Unknown" =
      names.get ⟨best_match_index d encs q, hbn⟩ := by
    simp [List.getD_eq_getElem?_getD, List.getElem?_eq_getElem hbn]
  have hnunk : matchName d tol encs names q ≠ "Unknown" := by
    rw [hname, hgetd]
    intro heq
    exact hunk (heq ▸ List.get_mem names _ _)
  refine ⟨hminz, hfirst, hname, hnunk, ?_⟩
  intro A hA
  rw [hname]
  exact hA _ hbl hminz

/-- Witness for C4 amended: a store with "B"'s encoding 3 and "A"'s
encoding 7, queried with 7 under threshold 0. -/
theorem match_zero_distance_witness :
    ((face_distance dDisc [(3 : ℚ), 7] 7).getD (best_match_index dDisc [(3 : ℚ), 7] 7)
      0 = 0) ∧
    (∀ k, k < best_match_index dDisc [(3 : ℚ), 7] 7 →
      (face_distance dDisc [(3 : ℚ), 7] 7).getD k 0 ≠ 0) ∧
    (matchName dDisc 0 [(3 : ℚ), 7] ["B", "A"] 7 =
      (["B", "A"]).getD (best_match_index dDisc [(3 : ℚ), 7] 7) "Unknown") ∧
    (matchName dDisc 0 [(3 : ℚ), 7] ["B", "A"] 7 ≠ "Unknown") ∧
    (∀ A : String,
      (∀ i, i < ([(3 : ℚ), 7]).length →
        (face_distance dDisc [(3 : ℚ), 7] 7).getD i 0 = 0 →
        (["B", "A"]).getD i "Unknown" = A) →
      matchName dDisc 0 [(3 : ℚ), 7] ["B", "A"] 7 = A) :=
  match_zero_distance dDisc 0 [(3 : ℚ), 7] ["B", "A"] 7 (by decide) (by decide)
    (by decide) (by decide) (by decide)

/-! ### Claims about the Encoding Store build phase -/

theorem personEncs_append {α : Type} (extract : String → ExtractResult α)
    (l1 l2 : List String) :
    personEncs extract (l1 ++ l2) = personEncs extract l1 ++ personEncs extract l2 := by
  simp [personEncs, List.filterMap_append]

theorem personEncs_cons {α : Type} (extract : String → ExtractResult α)
    (im : String) (post : List String) :
    personEncs extract (im :: post) =
      ((load_face_encoding im (extract im)).encoding).toList ++ personEncs extract post := by
  rcases h : (load_face_encoding im (extract im)).encoding with _ | e <;>
    simp [personEncs, List.filterMap_cons, h]

theorem load_images_foldl_eq {α : Type} (extract : String → ExtractResult α)
    (personName : String) :
    ∀ (imgs : List String) (db : FaceDatabase α) (n : Nat),
    imgs.foldl (load_images_step extract personName) (db, n) =
      (⟨db.known_face_encodings ++ personEncs extract imgs,
        db.known_face_names ++ List.replicate (personEncs extract imgs).length personName,
        db.encoding_count⟩, n + (personEncs extract imgs).length)
  | [], db, n => by simp [personEncs]
  | im :: rest, db, n => by
    have ih := load_images_foldl_eq extract personName rest
    rw [List.foldl_cons]
    rcases h : (load_face_encoding im (extract im)).encoding with _ | e
    · have hp : personEncs extract (im :: rest) = personEncs extract rest := by
        simp [personEncs, List.filterMap_cons, h]
      have hstep : load_images_step extract personName (db, n) im = (db, n) := by
        simp [load_images_step, h]
      rw [hstep, ih db n, hp]
    · have hp : personEncs extract (im :: rest) = e :: personEncs extract rest := by
        simp [personEncs, List.filterMap_cons, h]
      have hstep : load_images_step extract personName (db, n) im =
          (⟨db.known_face_encodings ++ [e], db.known_face_names ++ [personName],
            db.encoding_count⟩, n + 1) := by
        simp [load_images_step, h]
      rw [hstep, ih _ (n + 1), hp]
      simp only [Prod.mk.injEq, FaceDatabase.mk.injEq, and_true, List.length_cons]
      refine ⟨⟨?_, ?_⟩, ?_⟩
      · simp
      · simp [List.replicate_succ]
      · omega

theorem load_images_eq {α : Type} (extract : String → ExtractResult α)
    (personName : String) (imgs : List String) (db : FaceDatabase α) :
    load_images extract personName imgs db =
      (⟨db.known_face_encodings ++ personEncs extract imgs,
        db.known_face_names ++ List.replicate (personEncs extract imgs).length personName,
        db.encoding_count⟩, (personEncs extract imgs).length) := by
  rw [load_images, load_images_foldl_eq]
  simp

/-- C5: per-image extraction contributes at most one encoding and never
aborts the load phase: an extraction failure yields no encoding and an
error line naming the failure; zero faces yield no encoding and a
warning; several faces yield exactly the first returned encoding and a
warning; and the image loop still processes every image before and after
any such image, appending exactly the accepted encodings. -/
theorem load_face_encoding_robust {α : Type} (extract : String → ExtractResult α)
    (personName : String) (db : FaceDatabase α) (pre post : List String) (im : String) :
    (∀ (name msg : String), load_face_encoding name (ExtractResult.failure msg :
        ExtractResult α) = ⟨none, ["  Error loading " ++ name ++ ": " ++ msg]⟩) ∧
    (∀ name : String, load_face_encoding name (ExtractResult.ok ([] : List α)) =
      ⟨none, ["  Warning: No face found in " ++ name]⟩) ∧
    (∀ (name : String) (e : α) (es : List α),
      (load_face_encoding name (ExtractResult.ok (e :: es))).encoding = some e) ∧
    (∀ (name : String) (e e2 : α) (es : List α),
      (load_face_encoding name (ExtractResult.ok (e :: e2 :: es))).warnings =
        ["  Warning: Multiple faces found in " ++ name ++ ", using first one"]) ∧
    ((load_images extract personName (pre ++ im :: post) db).1.known_face_encodings =
      db.known_face_encodings ++ personEncs extract pre ++
        ((load_face_encoding im (extract im)).encoding).toList ++ personEncs extract post) := by
  refine ⟨fun name msg => rfl, fun name => rfl, fun name e es => rfl,
    fun name e e2 es => rfl, ?_⟩
  rw [load_images_eq]
  simp [personEncs_append, personEncs_cons]

/-! ### Claims about enrollment file selection -/

/-- C6 as stated is false: extension matching is not case-insensitive.
The file name "a.Jpg" carries the extension ".jpg" up to case — its
lowercasing is "a.jpg", which ends with ".jpg" — yet `list_image_files`
selects nothing from an existing directory holding exactly that file:
only the all-lowercase and the all-uppercase spellings of an extension
are globbed. -/
theorem image_selection_counterexample :
    List.isSuffixOf ".jpg".data (String.mk ("a.Jpg".data.map Char.toLower)).data = true ∧
    list_image_files true ["a.Jpg"] = [] := by decide

/-- C6 amended: the selected files are exactly those whose name ends in
an all-lowercase or an all-uppercase spelling of one of the five image
extensions — mixed-case spellings are not recognized — and the selection
is returned (hence processed) in lexicographic path order. -/
theorem image_selection_lex_sorted (ex : Bool) (files : List String) :
    (∀ f, f ∈ list_image_files ex files ↔
      (ex = true ∧ f ∈ files ∧ ∃ e ∈ image_extensions,
        (e.data <:+ f.data ∨ (str_upper e).data <:+ f.data))) ∧
    List.Sorted pathLe (list_image_files ex files) := by
  cases ex with
  | false =>
    constructor
    · intro f
      simp [list_image_files]
    · simp [list_image_files]
  | true =>
    constructor
    · intro f
      rw [list_image_files]
      simp only [Bool.true_eq_false, if_false, List.mem_insertionSort]
      simp only [image_extensions, List.foldl_cons, List.foldl_nil, glob_suffix,
        List.nil_append, List.mem_append, List.mem_filter,
        List.isSuffixOf_iff_suffix, List.mem_cons, List.not_mem_nil, or_false,
        false_and, exists_false]
      constructor
      · intro h
        rcases h with ((((((((⟨hf, hs⟩ | ⟨hf, hs⟩) | ⟨hf, hs⟩) | ⟨hf, hs⟩) |
          ⟨hf, hs⟩) | ⟨hf, hs⟩) | ⟨hf, hs⟩) | ⟨hf, hs⟩) | ⟨hf, hs⟩) | ⟨hf, hs⟩
        · exact ⟨trivial, hf, ".jpg", Or.inl rfl, Or.inl hs⟩
        · exact ⟨trivial, hf, ".jpg", Or.inl rfl, Or.inr hs⟩
        · exact ⟨trivial, hf, ".jpeg", Or.inr (Or.inl rfl), Or.inl hs⟩
        · exact ⟨trivial, hf, ".jpeg", Or.inr (Or.inl rfl), Or.inr hs⟩
        · exact ⟨trivial, hf, ".png", Or.inr (Or.inr (Or.inl rfl)), Or.inl hs⟩
        · exact ⟨trivial, hf, ".png", Or.inr (Or.inr (Or.inl rfl)), Or.inr hs⟩
        · exact ⟨trivial, hf, ".bmp", Or.inr (Or.inr (Or.inr (Or.inl rfl))), Or.inl hs⟩
        · exact ⟨trivial, hf, ".bmp", Or.inr (Or.inr (Or.inr (Or.inl rfl))), Or.inr hs⟩
        · exact ⟨trivial, hf, ".gif", Or.inr (Or.inr (Or.inr (Or.inr rfl))), Or.inl hs⟩
        · exact ⟨trivial, hf, ".gif", Or.inr (Or.inr (Or.inr (Or.inr rfl))), Or.inr hs⟩
      · rintro ⟨-, hf, e, he, hsuf⟩
        rcases he with rfl | rfl | rfl | rfl | rfl <;> rcases hsuf with h | h
        · exact Or.inl (Or.inl (Or.inl (Or.inl (Or.inl (Or.inl (Or.inl (Or.inl
            (Or.inl ⟨hf, h⟩))))))))
        · exact Or.inl (Or.inl (Or.inl (Or.inl (Or.inl (Or.inl (Or.inl (Or.inl
            (Or.inr ⟨hf, h⟩))))))))
        · exact Or.inl (Or.inl (Or.inl (Or.inl (Or.inl (Or.inl (Or.inl
            (Or.inr ⟨hf, h⟩)))))))
        · exact Or.inl (Or.inl (Or.inl (Or.inl (Or.inl (Or.inl
            (Or.inr ⟨hf, h⟩))))))
        · exact Or.inl (Or.inl (Or.inl (Or.inl (Or.inl (Or.inr ⟨hf, h⟩)))))
        · exact Or.inl (Or.inl (Or.inl (Or.inl (Or.inr ⟨hf, h⟩))))
        · exact Or.inl (Or.inl (Or.inl (Or.inr ⟨hf, h⟩)))
        · exact Or.inl (Or.inl (Or.inr ⟨hf, h⟩))
        · exact Or.inl (Or.inr ⟨hf, h⟩)
        · exact Or.inr ⟨hf, h⟩
    · rw [list_image_files]
      simp only [Bool.true_eq_false, if_false]
      exact List.sorted_insertionSort pathLe _

/-! ### Claims about the run control flow -/

/-- C7: when the camera cannot be opened the run fails before the
recognition session starts: `initialize_camera` reports the failure with
a `False` return, `run` creates no log artifact and processes no frame,
and `run_live` surfaces the same failure as an error value with the
formatted message — in no case does the capture loop start. -/
theorem camera_failure_is_fatal (storeNonempty : Bool) (reads : List Bool) (idx : Nat) :
    initialize_camera false = false ∧
    (run storeNonempty false reads).logCreated = false ∧
    (run storeNonempty false reads).cameraStarted = false ∧
    (run storeNonempty false reads).framesProcessed = 0 ∧
    run_live idx false = Except.error ("Cannot open camera " ++ toString idx) := by
  cases storeNonempty <;> simp [run, run_live, initialize_camera]

/-! ### Decomposition of a full `load_database` pass -/

theorem foldl_person_step_eq {α : Type} (extract : String → ExtractResult α) :
    ∀ (persons : List (String × List String)) (db : FaceDatabase α),
    ((persons.foldl (load_person_step extract) db).known_face_encodings =
      db.known_face_encodings ++ freshEncodings extract persons) ∧
    ((persons.foldl (load_person_step extract) db).known_face_names =
      db.known_face_names ++ freshNames extract persons)
  | [], db => by simp [freshEncodings, freshNames]
  | p :: rest, db => by
    have ih := foldl_person_step_eq extract rest
    rw [List.foldl_cons]
    have hfe : freshEncodings extract (p :: rest) =
        personEncs extract (list_image_files true p.2) ++ freshEncodings extract rest := by
      simp [freshEncodings]
    have hfn : freshNames extract (p :: rest) =
        List.replicate (personEncs extract (list_image_files true p.2)).length p.1 ++
          freshNames extract rest := by
      simp [freshNames]
    by_cases h : (list_image_files true p.2).isEmpty
    · have hnil : list_image_files true p.2 = [] := List.isEmpty_iff.mp h
      have hstep : load_person_step extract db p = db := by
        rw [load_person_step]
        simp [h]
      rw [hstep, hfe, hfn, hnil]
      constructor
      · rw [(ih db).1]
        simp [personEncs]
      · rw [(ih db).2]
        simp [personEncs]
    · have hstep : load_person_step extract db p =
          ⟨db.known_face_encodings ++ personEncs extract (list_image_files true p.2),
          db.known_face_names ++
            List.replicate (personEncs extract (list_image_files true p.2)).length p.1,
          setCount db.encoding_count p.1
            (personEncs extract (list_image_files true p.2)).length⟩ := by
        rw [load_person_step]
        simp only [h, Bool.false_eq_true, if_false, load_images_eq]
      rw [hstep, hfe, hfn]
      constructor
      · rw [(ih _).1]
        simp
      · rw [(ih _).2]
        simp

theorem load_database_decomposition {α : Type} (extract : String → ExtractResult α)
    (dirExists : Bool) (persons : List (String × List String)) (db : FaceDatabase α) :
    ((load_database extract dirExists persons db).known_face_encodings =
      db.known_face_encodings ++
        (if dirExists then freshEncodings extract persons else [])) ∧
    ((load_database extract dirExists persons db).known_face_names =
      db.known_face_names ++ (if dirExists then freshNames extract persons else [])) := by
  cases dirExists with
  | false => simp [load_database]
  | true =>
    rw [load_database]
    simp only [Bool.true_eq_false, if_false, if_true]
    by_cases h : persons.isEmpty
    · have hnil : persons = [] := List.isEmpty_iff.mp h
      subst hnil
      simp [freshEncodings, freshNames]
    · simp only [h, Bool.false_eq_true, if_false]
      exact foldl_person_step_eq extract persons db

theorem length_freshNames_eq {α : Type} (extract : String → ExtractResult α) :
    ∀ persons : List (String × List String),
    (freshNames extract persons).length = (freshEncodings extract persons).length
  | [] => by simp [freshEncodings, freshNames]
  | p :: rest => by
    have ih := length_freshNames_eq extract rest
    simp only [freshEncodings, freshNames, List.map_cons, List.flatten_cons,
      List.length_append, List.length_replicate]
    simp only [freshEncodings, freshNames] at ih
    omega

/-- C9: `load_database` keeps `known_face_encodings` and
`known_face_names` parallel: starting from any state where the two lists
have equal length, the result's lists have equal length, and they
decompose as the old lists extended, person directory by person
directory, with that person's accepted encodings and with their name
repeated once per accepted encoding — so the i-th appended name is the
identity that owns the i-th appended encoding.  Consequently, on a
nonempty store, `best_match_index` is a valid index into the names list
and into the match-flag list. -/
theorem database_parallel_invariant {α : Type} (extract : String → ExtractResult α)
    (dirExists : Bool) (persons : List (String × List String)) (db : FaceDatabase α)
    (h : db.known_face_names.length = db.known_face_encodings.length) :
    ((load_database extract dirExists persons db).known_face_names.length =
      (load_database extract dirExists persons db).known_face_encodings.length) ∧
    ((load_database extract dirExists persons db).known_face_encodings =
      db.known_face_encodings ++
        (if dirExists then freshEncodings extract persons else [])) ∧
    ((load_database extract dirExists persons db).known_face_names =
      db.known_face_names ++ (if dirExists then freshNames extract persons else [])) ∧
    (∀ (d : α → α → ℚ) (tol : ℚ) (q : α),
      (load_database extract dirExists persons db).known_face_encodings ≠ [] →
      best_match_index d (load_database extract dirExists persons db).known_face_encodings
          q < (load_database extract dirExists persons db).known_face_names.length ∧
      best_match_index d (load_database extract dirExists persons db).known_face_encodings
          q < (compare_faces d tol
            (load_database extract dirExists persons db).known_face_encodings q).length) := by
  obtain ⟨he, hn⟩ := load_database_decomposition extract dirExists persons db
  have hlen : (load_database extract dirExists persons db).known_face_names.length =
      (load_database extract dirExists persons db).known_face_encodings.length := by
    rw [he, hn]
    cases dirExists with
    | false => simp [h]
    | true => simp [h, length_freshNames_eq]
  refine ⟨hlen, he, hn, ?_⟩
  intro d tol q hne
  have hb := best_match_index_lt d _ q hne
  refine ⟨?_, ?_⟩
  · rw [hlen]
    exact hb
  · rw [length_compare_faces]
    exact hb

/-- The extractor of the concrete C9 instance: every image yields the
single encoding 1. -/
def extract9 : String → ExtractResult ℚ := fun _ => ExtractResult.ok [1]

/-- The directory tree of the concrete C9 instance. -/
def persons9 : List (String × List String) := [("alice", ["a.jpg"])]

/-- The store the concrete C9 instance loads. -/
def db9 : FaceDatabase ℚ := load_database extract9 true persons9 initDatabase

/-- Witness for C9: one person directory with one image yielding one
encoding, loaded into a fresh database. -/
theorem database_parallel_invariant_witness :
    (db9.known_face_names.length = db9.known_face_encodings.length) ∧
    (db9.known_face_encodings = (initDatabase : FaceDatabase ℚ).known_face_encodings ++
      (if true then freshEncodings extract9 persons9 else [])) ∧
    (db9.known_face_names = (initDatabase : FaceDatabase ℚ).known_face_names ++
      (if true then freshNames extract9 persons9 else [])) ∧
    (∀ (d : ℚ → ℚ → ℚ) (tol : ℚ) (q : ℚ), db9.known_face_encodings ≠ [] →
      best_match_index d db9.known_face_encodings q < db9.known_face_names.length ∧
      best_match_index d db9.known_face_encodings q <
        (compare_faces d tol db9.known_face_encodings q).length) :=
  database_parallel_invariant extract9 true persons9 initDatabase rfl

/-- C10: `load_database` is not idempotent.  It appends to the
instance's lists without clearing them, so with unchanged directory
contents a second call leaves the store holding every encoding and every
name entry twice — each list is the single-call list followed by itself,
with double the length — instead of leaving the store unchanged. -/
theorem load_database_not_idempotent {α : Type} (extract : String → ExtractResult α)
    (dirExists : Bool) (persons : List (String × List String)) :
    ((load_database extract dirExists persons (load_database extract dirExists persons
        (initDatabase : FaceDatabase α))).known_face_encodings =
      (load_database extract dirExists persons
        (initDatabase : FaceDatabase α)).known_face_encodings ++
      (load_database extract dirExists persons
        (initDatabase : FaceDatabase α)).known_face_encodings) ∧
    ((load_database extract dirExists persons (load_database extract dirExists persons
        (initDatabase : FaceDatabase α))).known_face_names =
      (load_database extract dirExists persons
        (initDatabase : FaceDatabase α)).known_face_names ++
      (load_database extract dirExists persons
        (initDatabase : FaceDatabase α)).known_face_names) ∧
    ((load_database extract dirExists persons (load_database extract dirExists persons
        (initDatabase : FaceDatabase α))).known_face_encodings.length =
      2 * (load_database extract dirExists persons
        (initDatabase : FaceDatabase α)).known_face_encodings.length) ∧
    ((load_database extract dirExists persons (load_database extract dirExists persons
        (initDatabase : FaceDatabase α))).known_face_names.length =
      2 * (load_database extract dirExists persons
        (initDatabase : FaceDatabase α)).known_face_names.length) := by
  obtain ⟨he1, hn1⟩ :=
    load_database_decomposition extract dirExists persons (initDatabase : FaceDatabase α)
  obtain ⟨he2, hn2⟩ := load_database_decomposition extract dirExists persons
    (load_database extract dirExists persons (initDatabase : FaceDatabase α))
  have hinit : (initDatabase : FaceDatabase α).known_face_encodings = [] := rfl
  have hinitn : (initDatabase : FaceDatabase α).known_face_names = [] := rfl
  have hes : (load_database extract dirExists persons
      (initDatabase : FaceDatabase α)).known_face_encodings =
      (if dirExists then freshEncodings extract persons else []) := by
    rw [he1, hinit, List.nil_append]
  have hns : (load_database extract dirExists persons
      (initDatabase : FaceDatabase α)).known_face_names =
      (if dirExists then freshNames extract persons else []) := by
    rw [hn1, hinitn, List.nil_append]
  have hee : (load_database extract dirExists persons (load_database extract dirExists
      persons (initDatabase : FaceDatabase α))).known_face_encodings =
      (load_database extract dirExists persons
        (initDatabase : FaceDatabase α)).known_face_encodings ++
      (load_database extract dirExists persons
        (initDatabase : FaceDatabase α)).known_face_encodings := by
    rw [he2, hes]
  have hnn : (load_database extract dirExists persons (load_database extract dirExists
      persons (initDatabase : FaceDatabase α))).known_face_names =
      (load_database extract dirExists persons
        (initDatabase : FaceDatabase α)).known_face_names ++
      (load_database extract dirExists persons
        (initDatabase : FaceDatabase α)).known_face_names := by
    rw [hn2, hns]
  refine ⟨hee, hnn, ?_, ?_⟩
  · rw [hee, List.length_append]
    omega
  · rw [hnn, List.length_append]
    omega

/-! ### Claim about the frame-skip policy -/

/-- C8: detection, encoding and matching are recomputed exactly on the
frames whose counter is a multiple of `process_every_n_frames`, which
`__init__` defaults to 2.  A skipped frame only increments the counter:
locations, names, encodings and the session log are reused unchanged for
display — so a log entry can be written only on a frame where matching
actually ran. -/
theorem frame_skip_policy {α β : Type} (d : α → α → ℚ) (tol : ℚ)
    (locate : β → List (Nat × Nat × Nat × Nat))
    (encode : β → List (Nat × Nat × Nat × Nat) → List α)
    (ts : String) (st : LoggerState α) (frame : β) :
    (initLoggerState : LoggerState α).process_every_n_frames = 2 ∧
    (st.frame_count % st.process_every_n_frames ≠ 0 →
      process_frame d tol locate encode ts st frame =
        { st with frame_count := st.frame_count + 1 }) ∧
    (st.frame_count % st.process_every_n_frames = 0 →
      (process_frame d tol locate encode ts st frame).face_locations = locate frame ∧
      (process_frame d tol locate encode ts st frame).face_encodings =
        encode frame (locate frame)) ∧
    ((process_frame d tol locate encode ts st frame).frame_count =
      st.frame_count + 1) ∧
    ((process_frame d tol locate encode ts st frame).session.entries ≠
        st.session.entries →
      st.frame_count % st.process_every_n_frames = 0) := by
  by_cases h : st.frame_count % st.process_every_n_frames = 0
  · refine ⟨rfl, fun hc => absurd h hc, fun _ => ?_, ?_, fun _ => h⟩
    · rw [process_frame, if_pos h]
      exact ⟨rfl, rfl⟩
    · rw [process_frame, if_pos h]
  · have hskip : process_frame d tol locate encode ts st frame =
        { st with frame_count := st.frame_count + 1 } := by
      rw [process_frame, if_neg h]
    refine ⟨rfl, fun _ => hskip, fun hc => absurd hc h, ?_, ?_⟩
    · rw [hskip]
    · intro hc
      exact absurd (by rw [hskip]) hc

/-- Witness for C8: with the default interval 2 and counter 1, the frame
is skipped and the state only advances its counter. -/
theorem frame_skip_policy_witness :
    process_frame dDisc 0 (fun _ : Nat => []) (fun _ _ => []) "t"
        { (initLoggerState : LoggerState ℚ) with frame_count := 1 } 0 =
      { (initLoggerState : LoggerState ℚ) with frame_count := 2 } :=
  (frame_skip_policy dDisc 0 (fun _ : Nat => []) (fun _ _ => []) "t"
    { (initLoggerState : LoggerState ℚ) with frame_count := 1 } 0).2.1 (by decide)

end FaceRec
